import Mathlib

/-!
Verification of the Medallion ETL + dual-write synchronization engine of the
vector-domain-search-api repository.

The development shallowly embeds the Python source:

* `app/services/seed_service.py` — pipeline orchestration (`run_seed_process`),
  bronze ingestion (`_ingest_all_to_bronze`), dimension upsert
  (`_upsert_polars_to_silver`), search sync (`_sync_to_typesense`), calendar
  seed (`_seed_calendar`) and fact CDC (`_process_metrics`);
* `app/etl/pipeline.py` — `DataExtractor` and `DateDimensionGenerator`;
* `app/services/search_service.py` — `SearchService.global_search`;
* `app/data_access/models.py` — the declared column sets of the SQLModel
  tables, in particular `DimAsset` and `MetricEntry`.

Rows that Python handles as `dict[str, Any]` (the output of polars
`DataFrame.to_dicts`) are embedded as association lists `List (String × Val)`
with first-occurrence lookup and in-place update, which matches the insertion
ordered semantics of Python dictionaries.  Machine times are embedded as
integers: a datetime value carries its epoch seconds, a pure calendar date
carries its day count since 1970-01-01.
-/

set_option maxHeartbeats 1000000

namespace VectorDomainSearch

/-- A Python scalar value as it occurs in a polars `to_dicts` row: `None`,
bool, int, str, an (aware) datetime carried as epoch seconds, or a pure
calendar date carried as days since 1970-01-01. -/
inductive Val where
  | vnull : Val
  | vbool : Bool → Val
  | vint : Int → Val
  | vstr : String → Val
  | vdt : Int → Val
  | vdate : Int → Val
  deriving DecidableEq, Repr

/-- Days-since-epoch of a civil date `(y, m, d)` (proleptic Gregorian),
following the standard civil-calendar conversion used by Python's
`datetime.date.toordinal` arithmetic. -/
def daysFromCivil (y m d : Int) : Int :=
  let y2 : Int := if m ≤ 2 then y - 1 else y
  let era : Int := Int.fdiv y2 400
  let yoe : Int := y2 - era * 400
  let mp : Int := if m > 2 then m - 3 else m + 9
  let doy : Int := Int.fdiv (153 * mp + 2) 5 + d - 1
  let doe : Int := 365 * yoe + Int.fdiv yoe 4 - Int.fdiv yoe 100 + doy
  era * 146097 + doe - 719468

/-- Civil date `(y, m, d)` of a days-since-epoch count (inverse direction of
`daysFromCivil`). -/
def civilFromDays (z0 : Int) : Int × Int × Int :=
  let z : Int := z0 + 719468
  let era : Int := Int.fdiv z 146097
  let doe : Int := z - era * 146097
  let yoe : Int :=
    Int.fdiv (doe - Int.fdiv doe 1460 + Int.fdiv doe 36524 - Int.fdiv doe 146096) 365
  let y : Int := yoe + era * 400
  let doy : Int := doe - (365 * yoe + Int.fdiv yoe 4 - Int.fdiv yoe 100)
  let mp : Int := Int.fdiv (5 * doy + 2) 153
  let d : Int := doy - Int.fdiv (153 * mp + 2) 5 + 1
  let m : Int := if mp < 10 then mp + 3 else mp - 9
  (if m ≤ 2 then y + 1 else y, m, d)

/-- Two-digit zero padding, as Python's ISO formatting uses. -/
def pad2 (n : Int) : String :=
  if n < 10 then "0" ++ toString n else toString n

/-- Rendering of a Python `date` value by `str`: ISO `YYYY-MM-DD`. -/
def isoDate (days : Int) : String :=
  let c := civilFromDays days
  toString c.1 ++ "-" ++ pad2 c.2.1 ++ "-" ++ pad2 c.2.2

/-- Rendering of a Python `datetime` value at whole seconds by `str`: ISO
`YYYY-MM-DD HH:MM:SS`. -/
def isoDateTime (e : Int) : String :=
  let days : Int := Int.fdiv e 86400
  let rem : Int := e - 86400 * days
  isoDate days ++ " " ++ pad2 (Int.fdiv rem 3600) ++ ":" ++
    pad2 (Int.fdiv (Int.emod rem 3600) 60) ++ ":" ++ pad2 (Int.emod rem 60)

/-- Python's `str()` on an embedded scalar.  In particular `str(None)` is the
string `None`, which is what `_process_metrics` feeds to `.upper()` when a row
carries a null `action`. -/
def pyStr : Val → String
  | .vnull => "None"
  | .vbool true => "True"
  | .vbool false => "False"
  | .vint n => toString n
  | .vstr s => s
  | .vdt e => isoDateTime e
  | .vdate d => isoDate d

/-- Python's truthiness on an embedded scalar: `None`, `False`, `0` and the
empty string are falsy; date and datetime objects are always truthy.  This is
the test the expression `row.get("source_timestamp") or now` performs. -/
def pyTruthy : Val → Bool
  | .vnull => false
  | .vbool b => b
  | .vint n => n != 0
  | .vstr s => !s.isEmpty
  | .vdt _ => true
  | .vdate _ => true

/-- A row, i.e. a Python dict as produced by polars `to_dicts`: association
list with insertion order. -/
abbrev Row := List (String × Val)

/-- Dict lookup (`row.get(k)` when wrapped in `Option`): first occurrence. -/
def rlookup : Row → String → Option Val
  | [], _ => none
  | (k, v) :: rest, key => if k = key then some v else rlookup rest key

/-- Dict update `d[k] = v`: replaces the first binding of `k` in place, or
appends a new binding at the end (Python dict insertion order). -/
def rset : Row → String → Val → Row
  | [], key, v => [(key, v)]
  | (k, w) :: rest, key, v =>
      if k = key then (key, v) :: rest else (k, w) :: rset rest key v

/-- SQL update of every column bound in `new` onto the row `old`
(the effect of `on_conflict_do_update(set_=valid_data)` on the conflicting
row). -/
def mergeRow (old new : Row) : Row :=
  new.foldl (fun acc kv => rset acc kv.1 kv.2) old

/-- Projection `{k: v for k, v in row.items() if k in fields}`. -/
def projectRow (fields : List String) (row : Row) : Row :=
  row.filter (fun p => decide (p.1 ∈ fields))

/-! ## Basic dictionary lemmas -/

theorem rlookup_rset_self (r : Row) (k : String) (v : Val) :
    rlookup (rset r k v) k = some v := by
  induction r with
  | nil => simp [rset, rlookup]
  | cons hd tl ih =>
      obtain ⟨a, b⟩ := hd
      by_cases h : a = k
      · simp [rset, h, rlookup]
      · simp [rset, h, rlookup, ih]

theorem rlookup_rset_other (r : Row) (k k2 : String) (v : Val) (h : k2 ≠ k) :
    rlookup (rset r k v) k2 = rlookup r k2 := by
  have hkk : ¬ k = k2 := fun e => h e.symm
  induction r with
  | nil => simp [rset, rlookup, hkk]
  | cons hd tl ih =>
      obtain ⟨a, b⟩ := hd
      by_cases ha : a = k
      · subst ha
        simp [rset, rlookup, hkk]
      · by_cases ha2 : a = k2
        · simp [rset, rlookup, ha, ha2, h]
        · simp [rset, rlookup, ha, ha2, ih]

theorem rlookup_eq_none_of_not_mem_keys (r : Row) (k : String)
    (h : ¬ k ∈ r.map Prod.fst) : rlookup r k = none := by
  induction r with
  | nil => rfl
  | cons hd tl ih =>
      obtain ⟨a, b⟩ := hd
      have ha : ¬ a = k := fun e => h (by simp [e])
      have htl : ¬ k ∈ tl.map Prod.fst := fun e => h (by simp [e])
      simp [rlookup, ha, ih htl]

theorem rlookup_projectRow (fields : List String) (row : Row) (k : String) :
    rlookup (projectRow fields row) k =
      if k ∈ fields then rlookup row k else none := by
  induction row with
  | nil => simp [projectRow, rlookup]
  | cons hd tl ih =>
      obtain ⟨a, b⟩ := hd
      by_cases hc : a ∈ fields
      · by_cases hk : a = k
        · subst hk
          simp [projectRow, hc, rlookup]
        · simp only [projectRow, List.filter_cons] at *
          simp [hc, rlookup, hk, ih]
      · by_cases hk : a = k
        · subst hk
          simp only [projectRow, List.filter_cons] at *
          simp [hc, rlookup, ih]
        · simp only [projectRow, List.filter_cons] at *
          simp [hc, rlookup, hk, ih]

theorem keys_rset_of_mem (r : Row) (k : String) (v : Val)
    (h : k ∈ r.map Prod.fst) :
    (rset r k v).map Prod.fst = r.map Prod.fst := by
  induction r with
  | nil => simp at h
  | cons hd tl ih =>
      obtain ⟨a, b⟩ := hd
      by_cases ha : a = k
      · simp [rset, ha]
      · have htl : k ∈ tl.map Prod.fst := by
          simp only [List.map_cons] at h
          rcases List.mem_cons.mp h with h1 | h1
          · exact absurd h1.symm ha
          · exact h1
        simp [rset, ha, ih htl]

theorem keys_rset_of_not_mem (r : Row) (k : String) (v : Val)
    (h : ¬ k ∈ r.map Prod.fst) :
    (rset r k v).map Prod.fst = r.map Prod.fst ++ [k] := by
  induction r with
  | nil => simp [rset]
  | cons hd tl ih =>
      obtain ⟨a, b⟩ := hd
      have ha : ¬ a = k := fun e => h (by simp [e])
      have htl : ¬ k ∈ tl.map Prod.fst := fun e => h (by simp [e])
      simp [rset, ha, ih htl]

theorem keys_rset_congr (a b : Row) (k : String) (v w : Val)
    (h : a.map Prod.fst = b.map Prod.fst) :
    (rset a k v).map Prod.fst = (rset b k w).map Prod.fst := by
  by_cases hm : k ∈ a.map Prod.fst
  · rw [keys_rset_of_mem a k v hm, keys_rset_of_mem b k w (h ▸ hm), h]
  · rw [keys_rset_of_not_mem a k v hm,
        keys_rset_of_not_mem b k w (fun e => hm (h ▸ e)), h]

theorem nodup_keys_rset (r : Row) (k : String) (v : Val)
    (h : (r.map Prod.fst).Nodup) : ((rset r k v).map Prod.fst).Nodup := by
  by_cases hm : k ∈ r.map Prod.fst
  · rw [keys_rset_of_mem r k v hm]; exact h
  · rw [keys_rset_of_not_mem r k v hm]
    exact List.nodup_append.mpr
      ⟨h, List.nodup_singleton k,
        fun x hx hx2 => hm ((List.mem_singleton.mp hx2) ▸ hx)⟩

theorem keys_projectRow_sublist (fields : List String) (row : Row) :
    ((projectRow fields row).map Prod.fst).Sublist (row.map Prod.fst) :=
  List.Sublist.map Prod.fst (List.filter_sublist row)

theorem nodup_keys_projectRow (fields : List String) (row : Row)
    (h : (row.map Prod.fst).Nodup) :
    ((projectRow fields row).map Prod.fst).Nodup :=
  (keys_projectRow_sublist fields row).nodup h

/-- Folding `rset` with a fresh head key commutes past that head. -/
theorem foldl_rset_cons (new : Row) (k : String) (v : Val) (old : Row)
    (h : ¬ k ∈ new.map Prod.fst) :
    new.foldl (fun acc kv => rset acc kv.1 kv.2) ((k, v) :: old) =
      (k, v) :: new.foldl (fun acc kv => rset acc kv.1 kv.2) old := by
  induction new generalizing old with
  | nil => rfl
  | cons hd tl ih =>
      obtain ⟨a, b⟩ := hd
      have ha : ¬ a = k := fun e => h (by simp [e])
      have htl : ¬ k ∈ tl.map Prod.fst := fun e => h (by simp [e])
      have hne : ¬ k = a := fun e => ha e.symm
      simp only [List.foldl_cons, rset, if_neg hne]
      exact ih _ htl

/-- Overwriting a row by a row with exactly the same key sequence yields the
second row (the second upsert of one batch row replaces the first wholesale). -/
theorem mergeRow_same_keys (old new : Row)
    (hkeys : old.map Prod.fst = new.map Prod.fst)
    (hnodup : (new.map Prod.fst).Nodup) :
    mergeRow old new = new := by
  induction new generalizing old with
  | nil =>
      cases old with
      | nil => rfl
      | cons o os => simp at hkeys
  | cons hd tl ih =>
      obtain ⟨a, b⟩ := hd
      cases old with
      | nil => simp at hkeys
      | cons o os =>
          obtain ⟨oa, ob⟩ := o
          simp only [List.map_cons, List.cons.injEq] at hkeys
          obtain ⟨hk, hks⟩ := hkeys
          rw [List.map_cons, List.nodup_cons] at hnodup
          obtain ⟨hfresh, hnodtl⟩ := hnodup
          simp only [mergeRow, List.foldl_cons, rset, if_pos hk]
          rw [foldl_rset_cons tl a b os hfresh]
          have hrec := ih os hks hnodtl
          simp only [mergeRow] at hrec
          rw [hrec]

/-- Lookup in a merged row: a key bound in `new` takes the `new` value, any
other key keeps the `old` value.  `new` is assumed duplicate-free (it comes
from a Python dict). -/
theorem rlookup_mergeRow (old new : Row) (k : String)
    (hnodup : (new.map Prod.fst).Nodup) :
    rlookup (mergeRow old new) k =
      match rlookup new k with
      | some v => some v
      | none => rlookup old k := by
  induction new generalizing old with
  | nil => simp [mergeRow, rlookup]
  | cons hd tl ih =>
      obtain ⟨a, b⟩ := hd
      rw [List.map_cons, List.nodup_cons] at hnodup
      obtain ⟨hfresh, hnodtl⟩ := hnodup
      simp only [mergeRow, List.foldl_cons]
      have hrec := ih (rset old a b) hnodtl
      simp only [mergeRow] at hrec
      by_cases hk : a = k
      · subst hk
        have hnone : rlookup tl a = none :=
          rlookup_eq_none_of_not_mem_keys tl a hfresh
        rw [hrec, hnone]
        simp [rlookup, rlookup_rset_self]
      · rw [hrec]
        cases hcase : rlookup tl k with
        | some v => simp [rlookup, hk, hcase]
        | none =>
            simp only [rlookup, if_neg hk, hcase]
            exact rlookup_rset_other old a k b (fun e => hk e.symm)

/-! ## Dimension upsert engine (`SeedService._upsert_polars_to_silver`)

The Python body, per row of the batch:

1. `valid_data = {k: v for k, v in row.items() if k in fields}`  — projection;
2. `if "is_active" in fields: valid_data["is_active"] = True`;
3. `if "updated_at" in fields: valid_data["updated_at"] = now`;
4. `if "source_timestamp" in fields:
      valid_data["source_timestamp"] = row.get("source_timestamp") or now`;
5. `insert(model).values(**valid_data).on_conflict_do_update(
      index_elements=[unique_col], set_=valid_data)`.

Each numbered statement is one definition below; `prepareRow` is their
composition and `upsertRow` is the conflict-aware insert. -/

/-- The three pipeline-metadata columns stamped by the upsert engine. -/
def metadataKeys : List String := ["is_active", "updated_at", "source_timestamp"]

/-- Statement 2: stamp `is_active = True` when the model declares it. -/
def stampActive (fields : List String) (vd : Row) : Row :=
  if "is_active" ∈ fields then rset vd "is_active" (.vbool true) else vd

/-- Statement 3: stamp `updated_at = now` when the model declares it. -/
def stampUpdated (fields : List String) (now : Int) (vd : Row) : Row :=
  if "updated_at" ∈ fields then rset vd "updated_at" (.vdt now) else vd

/-- The value of `row.get("source_timestamp") or now`: Python `or` keeps the
row value only when it is truthy (an absent key yields `None`, which is
falsy). -/
def sourceStampValue (now : Int) (row : Row) : Val :=
  if pyTruthy ((rlookup row "source_timestamp").getD .vnull) then
    (rlookup row "source_timestamp").getD .vnull
  else .vdt now

/-- Statement 4: stamp `source_timestamp` when the model declares it. -/
def stampSource (fields : List String) (now : Int) (row vd : Row) : Row :=
  if "source_timestamp" ∈ fields then
    rset vd "source_timestamp" (sourceStampValue now row)
  else vd

/-- The full `valid_data` dictionary the engine builds for one batch row. -/
def prepareRow (fields : List String) (now : Int) (row : Row) : Row :=
  stampSource fields now row (stampUpdated fields now (stampActive fields (projectRow fields row)))

/-- SQL conflict on the unique business-key column: the inserted values and an
existing row conflict exactly when both carry the column and the values are
equal (SQL `NULL` equals nothing). -/
def keyConflict (ukey : String) (vd t : Row) : Bool :=
  match rlookup vd ukey, rlookup t ukey with
  | some a, some b => decide (a = b)
  | _, _ => false

/-- Statement 5: `INSERT ... ON CONFLICT (unique_col) DO UPDATE SET valid_data`
against the current table contents. -/
def upsertRow (fields : List String) (ukey : String) (now : Int)
    (table : List Row) (row : Row) : List Row :=
  if table.any (fun t => keyConflict ukey (prepareRow fields now row) t) then
    table.map (fun t =>
      if keyConflict ukey (prepareRow fields now row) t then
        mergeRow t (prepareRow fields now row)
      else t)
  else table ++ [prepareRow fields now row]

/-- The loop of `_upsert_polars_to_silver` over the whole batch (one call of
the engine: all rows in one transaction, one shared `now`). -/
def upsertBatch (fields : List String) (ukey : String) (now : Int)
    (table : List Row) (batch : List Row) : List Row :=
  batch.foldl (upsertRow fields ukey now) table

/-- Field list `DimAsset.model_fields` (`app/data_access/models.py`), in declaration
order. -/
def dimAssetFields : List String :=
  ["id", "resource_name", "serial_number", "description", "created_at",
   "is_active", "source_timestamp", "updated_at"]

/-! ### Lookup characterization of `prepareRow` -/

theorem rlookup_stampSource_other (fields : List String) (now : Int)
    (row vd : Row) (k : String) (h : k ≠ "source_timestamp") :
    rlookup (stampSource fields now row vd) k = rlookup vd k := by
  unfold stampSource
  by_cases hf : "source_timestamp" ∈ fields
  · rw [if_pos hf]
    exact rlookup_rset_other vd "source_timestamp" k (sourceStampValue now row) h
  · rw [if_neg hf]

theorem rlookup_stampUpdated_other (fields : List String) (now : Int)
    (vd : Row) (k : String) (h : k ≠ "updated_at") :
    rlookup (stampUpdated fields now vd) k = rlookup vd k := by
  unfold stampUpdated
  by_cases hf : "updated_at" ∈ fields
  · rw [if_pos hf]
    exact rlookup_rset_other vd "updated_at" k (.vdt now) h
  · rw [if_neg hf]

theorem rlookup_stampActive_other (fields : List String)
    (vd : Row) (k : String) (h : k ≠ "is_active") :
    rlookup (stampActive fields vd) k = rlookup vd k := by
  unfold stampActive
  by_cases hf : "is_active" ∈ fields
  · rw [if_pos hf]
    exact rlookup_rset_other vd "is_active" k (.vbool true) h
  · rw [if_neg hf]

theorem rlookup_prepareRow_is_active (fields : List String) (now : Int)
    (row : Row) (h : "is_active" ∈ fields) :
    rlookup (prepareRow fields now row) "is_active" = some (.vbool true) := by
  unfold prepareRow
  rw [rlookup_stampSource_other _ _ _ _ _ (by decide),
      rlookup_stampUpdated_other _ _ _ _ (by decide)]
  unfold stampActive
  rw [if_pos h]
  exact rlookup_rset_self _ _ _

theorem rlookup_prepareRow_updated_at (fields : List String) (now : Int)
    (row : Row) (h : "updated_at" ∈ fields) :
    rlookup (prepareRow fields now row) "updated_at" = some (.vdt now) := by
  unfold prepareRow
  rw [rlookup_stampSource_other _ _ _ _ _ (by decide)]
  unfold stampUpdated
  rw [if_pos h]
  exact rlookup_rset_self _ _ _

theorem rlookup_prepareRow_source (fields : List String) (now : Int)
    (row : Row) (h : "source_timestamp" ∈ fields) :
    rlookup (prepareRow fields now row) "source_timestamp" =
      some (sourceStampValue now row) := by
  unfold prepareRow stampSource
  rw [if_pos h]
  exact rlookup_rset_self _ _ _

theorem rlookup_prepareRow_other (fields : List String) (now : Int)
    (row : Row) (k : String) (hm : ¬ k ∈ metadataKeys) :
    rlookup (prepareRow fields now row) k =
      if k ∈ fields then rlookup row k else none := by
  have hm1 : k ≠ "is_active" := by
    intro e; exact hm (by rw [e]; simp [metadataKeys])
  have hm2 : k ≠ "updated_at" := by
    intro e; exact hm (by rw [e]; simp [metadataKeys])
  have hm3 : k ≠ "source_timestamp" := by
    intro e; exact hm (by rw [e]; simp [metadataKeys])
  unfold prepareRow
  rw [rlookup_stampSource_other _ _ _ _ _ hm3,
      rlookup_stampUpdated_other _ _ _ _ hm2,
      rlookup_stampActive_other _ _ _ hm1]
  exact rlookup_projectRow fields row k

/-! ### Key-sequence facts about `prepareRow` -/

theorem keys_stampActive_congr (fields : List String) (a b : Row)
    (h : a.map Prod.fst = b.map Prod.fst) :
    (stampActive fields a).map Prod.fst = (stampActive fields b).map Prod.fst := by
  unfold stampActive
  by_cases hf : "is_active" ∈ fields
  · rw [if_pos hf, if_pos hf]
    exact keys_rset_congr a b _ _ _ h
  · rw [if_neg hf, if_neg hf]
    exact h

theorem keys_stampUpdated_congr (fields : List String) (t1 t2 : Int) (a b : Row)
    (h : a.map Prod.fst = b.map Prod.fst) :
    (stampUpdated fields t1 a).map Prod.fst =
      (stampUpdated fields t2 b).map Prod.fst := by
  unfold stampUpdated
  by_cases hf : "updated_at" ∈ fields
  · rw [if_pos hf, if_pos hf]
    exact keys_rset_congr a b _ _ _ h
  · rw [if_neg hf, if_neg hf]
    exact h

theorem keys_stampSource_congr (fields : List String) (t1 t2 : Int)
    (row : Row) (a b : Row) (h : a.map Prod.fst = b.map Prod.fst) :
    (stampSource fields t1 row a).map Prod.fst =
      (stampSource fields t2 row b).map Prod.fst := by
  unfold stampSource
  by_cases hf : "source_timestamp" ∈ fields
  · rw [if_pos hf, if_pos hf]
    exact keys_rset_congr a b _ _ _ h
  · rw [if_neg hf, if_neg hf]
    exact h

/-- The key sequence of a prepared row does not depend on the stamp time. -/
theorem keys_prepareRow_time_indep (fields : List String) (t1 t2 : Int)
    (row : Row) :
    (prepareRow fields t1 row).map Prod.fst =
      (prepareRow fields t2 row).map Prod.fst := by
  unfold prepareRow
  exact keys_stampSource_congr fields t1 t2 row _ _
    (keys_stampUpdated_congr fields t1 t2 _ _
      (keys_stampActive_congr fields _ _ rfl))

theorem nodup_keys_prepareRow (fields : List String) (now : Int) (row : Row)
    (h : (row.map Prod.fst).Nodup) :
    ((prepareRow fields now row).map Prod.fst).Nodup := by
  unfold prepareRow stampSource stampUpdated stampActive
  have h0 := nodup_keys_projectRow fields row h
  by_cases h1 : "is_active" ∈ fields <;>
    by_cases h2 : "updated_at" ∈ fields <;>
      by_cases h3 : "source_timestamp" ∈ fields <;>
        simp only [if_pos, if_neg, h1, h2, h3, if_true, if_false] <;>
          first
            | exact nodup_keys_rset _ _ _ (nodup_keys_rset _ _ _ (nodup_keys_rset _ _ _ h0))
            | exact nodup_keys_rset _ _ _ (nodup_keys_rset _ _ _ h0)
            | exact nodup_keys_rset _ _ _ h0
            | exact h0

/-! ### Behaviour of the batch upsert -/

theorem keyConflict_iff (ukey : String) (vd t : Row) (a : Val)
    (hv : rlookup vd ukey = some a) :
    keyConflict ukey vd t = true ↔ rlookup t ukey = some a := by
  unfold keyConflict
  rw [hv]
  cases h : rlookup t ukey with
  | none => simp
  | some b => simp [eq_comm]

theorem rlookup_prepareRow_key (fields : List String) (ukey : String)
    (now : Int) (row : Row) (hk : ukey ∈ fields)
    (h1 : ukey ≠ "is_active") (h2 : ukey ≠ "updated_at")
    (h3 : ukey ≠ "source_timestamp") :
    rlookup (prepareRow fields now row) ukey = rlookup row ukey := by
  have hm : ¬ ukey ∈ metadataKeys := by simp [metadataKeys, h1, h2, h3]
  rw [rlookup_prepareRow_other fields now row ukey hm, if_pos hk]

theorem upsertRow_fresh (fields : List String) (ukey : String) (now : Int)
    (table : List Row) (row : Row)
    (h : ∀ t ∈ table, keyConflict ukey (prepareRow fields now row) t = false) :
    upsertRow fields ukey now table row = table ++ [prepareRow fields now row] := by
  unfold upsertRow
  have hany : table.any (fun t => keyConflict ukey (prepareRow fields now row) t) = false := by
    rw [List.any_eq_false]
    intro t ht
    rw [h t ht]
    exact Bool.false_ne_true
  rw [hany]
  rfl

/-- First application of a batch with fresh, pairwise-distinct business keys:
every row is appended. -/
theorem upsertBatch_fresh (fields : List String) (ukey : String) (now : Int)
    (hk : ukey ∈ fields) (h1 : ukey ≠ "is_active") (h2 : ukey ≠ "updated_at")
    (h3 : ukey ≠ "source_timestamp")
    (batch : List Row) (table : List Row)
    (hpres : ∀ r ∈ batch, (rlookup r ukey).isSome = true)
    (hnodup : (batch.map (fun r => rlookup r ukey)).Nodup)
    (hdisj : ∀ t ∈ table, ∀ r ∈ batch, rlookup t ukey ≠ rlookup r ukey) :
    upsertBatch fields ukey now table batch =
      table ++ batch.map (prepareRow fields now) := by
  induction batch generalizing table with
  | nil => simp [upsertBatch]
  | cons r rest ih =>
      obtain ⟨v, hv⟩ := Option.isSome_iff_exists.mp (hpres r (by simp))
      have hpv : rlookup (prepareRow fields now r) ukey = some v := by
        rw [rlookup_prepareRow_key fields ukey now r hk h1 h2 h3]; exact hv
      have hconf : ∀ t ∈ table, keyConflict ukey (prepareRow fields now r) t = false := by
        intro t ht
        rw [Bool.eq_false_iff]
        intro hcontra
        have := (keyConflict_iff ukey _ t v hpv).mp hcontra
        exact hdisj t ht r (by simp) (by rw [this, hv])
      have hstep : upsertBatch fields ukey now table (r :: rest) =
          upsertBatch fields ukey now (table ++ [prepareRow fields now r]) rest := by
        unfold upsertBatch
        rw [List.foldl_cons, upsertRow_fresh fields ukey now table r hconf]
      rw [hstep]
      rw [ih (table ++ [prepareRow fields now r])
            (fun r2 hr2 => hpres r2 (by simp [hr2]))
            (by
              rw [List.map_cons, List.nodup_cons] at hnodup
              exact hnodup.2)
            (by
              intro t ht r2 hr2
              rcases List.mem_append.mp ht with hmem | hmem
              · exact hdisj t hmem r2 (by simp [hr2])
              · have ht2 : t = prepareRow fields now r := List.mem_singleton.mp hmem
                rw [ht2, rlookup_prepareRow_key fields ukey now r hk h1 h2 h3]
                rw [List.map_cons, List.nodup_cons] at hnodup
                intro he
                exact hnodup.1 (he ▸ List.mem_map_of_mem (fun r3 => rlookup r3 ukey) hr2))]
      simp

theorem map_id_of_forall {α : Type} (l : List α) (f : α → α)
    (h : ∀ a ∈ l, f a = a) : l.map f = l := by
  induction l with
  | nil => rfl
  | cons hd tl ih =>
      rw [List.map_cons, h hd (by simp), ih (fun a ha => h a (by simp [ha]))]

/-- Second application of the same batch over the table the first application
produced: every row is overwritten in place with the freshly-stamped values. -/
theorem upsertBatch_refresh (fields : List String) (ukey : String)
    (t1 t2 : Int) (hk : ukey ∈ fields) (h1 : ukey ≠ "is_active")
    (h2 : ukey ≠ "updated_at") (h3 : ukey ≠ "source_timestamp")
    (batch : List Row) (pre : List Row)
    (hpres : ∀ r ∈ batch, (rlookup r ukey).isSome = true)
    (hnodup : (batch.map (fun r => rlookup r ukey)).Nodup)
    (hrows : ∀ r ∈ batch, (r.map Prod.fst).Nodup)
    (hdisj : ∀ p ∈ pre, ∀ r ∈ batch, rlookup p ukey ≠ rlookup r ukey) :
    upsertBatch fields ukey t2 (pre ++ batch.map (prepareRow fields t1)) batch =
      pre ++ batch.map (prepareRow fields t2) := by
  induction batch generalizing pre with
  | nil => simp [upsertBatch]
  | cons r rest ih =>
      obtain ⟨v, hv⟩ := Option.isSome_iff_exists.mp (hpres r (by simp))
      have hpv2 : rlookup (prepareRow fields t2 r) ukey = some v := by
        rw [rlookup_prepareRow_key fields ukey t2 r hk h1 h2 h3]; exact hv
      have hpv1 : rlookup (prepareRow fields t1 r) ukey = some v := by
        rw [rlookup_prepareRow_key fields ukey t1 r hk h1 h2 h3]; exact hv
      rw [List.map_cons, List.nodup_cons] at hnodup
      have hmerge : mergeRow (prepareRow fields t1 r) (prepareRow fields t2 r) =
          prepareRow fields t2 r :=
        mergeRow_same_keys _ _ (keys_prepareRow_time_indep fields t1 t2 r)
          (nodup_keys_prepareRow fields t2 r (hrows r (by simp)))
      have hstep : upsertRow fields ukey t2
            (pre ++ prepareRow fields t1 r :: rest.map (prepareRow fields t1)) r =
          (pre ++ [prepareRow fields t2 r]) ++ rest.map (prepareRow fields t1) := by
        unfold upsertRow
        have hany : (pre ++ prepareRow fields t1 r :: rest.map (prepareRow fields t1)).any
            (fun t => keyConflict ukey (prepareRow fields t2 r) t) = true := by
          rw [List.any_eq_true]
          exact ⟨prepareRow fields t1 r, by simp,
            (keyConflict_iff ukey _ _ v hpv2).mpr hpv1⟩
        rw [hany]
        simp only [if_true]
        rw [List.map_append, List.map_cons]
        have hpre : pre.map (fun t =>
            if keyConflict ukey (prepareRow fields t2 r) t then
              mergeRow t (prepareRow fields t2 r) else t) = pre := by
          apply map_id_of_forall
          intro p hp
          have : keyConflict ukey (prepareRow fields t2 r) p = false := by
            rw [Bool.eq_false_iff]
            intro hcontra
            exact hdisj p hp r (by simp)
              (by rw [(keyConflict_iff ukey _ p v hpv2).mp hcontra, hv])
          rw [this]
          simp
        have hhd : (if keyConflict ukey (prepareRow fields t2 r) (prepareRow fields t1 r) then
              mergeRow (prepareRow fields t1 r) (prepareRow fields t2 r)
            else prepareRow fields t1 r) = prepareRow fields t2 r := by
          rw [if_pos ((keyConflict_iff ukey _ _ v hpv2).mpr hpv1)]
          exact hmerge
        have hrest : (rest.map (prepareRow fields t1)).map (fun t =>
            if keyConflict ukey (prepareRow fields t2 r) t then
              mergeRow t (prepareRow fields t2 r) else t) =
            rest.map (prepareRow fields t1) := by
          apply map_id_of_forall
          intro p hp
          obtain ⟨r2, hr2, hpr2⟩ := List.mem_map.mp hp
          have hlk : rlookup p ukey = rlookup r2 ukey := by
            rw [← hpr2]
            exact rlookup_prepareRow_key fields ukey t1 r2 hk h1 h2 h3
          have : keyConflict ukey (prepareRow fields t2 r) p = false := by
            rw [Bool.eq_false_iff]
            intro hcontra
            have hval := (keyConflict_iff ukey _ p v hpv2).mp hcontra
            apply hnodup.1
            have hr2v : rlookup r2 ukey = some v := by rw [← hlk]; exact hval
            rw [hv, ← hr2v]
            exact List.mem_map_of_mem (fun r3 => rlookup r3 ukey) hr2
          rw [this]
          simp
        rw [hpre, hhd, hrest]
        simp
      have hfold : upsertBatch fields ukey t2
            (pre ++ (r :: rest).map (prepareRow fields t1)) (r :: rest) =
          upsertBatch fields ukey t2
            ((pre ++ [prepareRow fields t2 r]) ++ rest.map (prepareRow fields t1)) rest := by
        unfold upsertBatch
        rw [List.map_cons, List.foldl_cons, hstep]
      rw [hfold]
      rw [ih (pre ++ [prepareRow fields t2 r])
            (fun r2 hr2 => hpres r2 (by simp [hr2]))
            hnodup.2
            (fun r2 hr2 => hrows r2 (by simp [hr2]))
            (by
              intro p hp r2 hr2
              rcases List.mem_append.mp hp with hmem | hmem
              · exact hdisj p hmem r2 (by simp [hr2])
              · have hp2 : p = prepareRow fields t2 r := List.mem_singleton.mp hmem
                rw [hp2, hpv2, ← hv]
                intro he
                exact hnodup.1
                  (he ▸ List.mem_map_of_mem (fun r3 => rlookup r3 ukey) hr2))]
      simp

theorem length_filter_eq_one_of_nodup_map {α β : Type} [DecidableEq β]
    (f : α → β) (l : List α) (h : (l.map f).Nodup) (x : α) (hx : x ∈ l) :
    (l.filter (fun y => decide (f y = f x))).length = 1 := by
  induction l with
  | nil => simp at hx
  | cons hd tl ih =>
      rw [List.map_cons, List.nodup_cons] at h
      rcases List.mem_cons.mp hx with he | he
      · rw [List.filter_cons, if_pos (by rw [he]; simp)]
        have hnil : tl.filter (fun y => decide (f y = f x)) = [] := by
          apply List.filter_eq_nil_iff.mpr
          intro a ha
          simp only [decide_eq_true_eq]
          intro hfa
          exact h.1 (by rw [← he, ← hfa]; exact List.mem_map_of_mem f ha)
        rw [hnil]
        rfl
      · rw [List.filter_cons]
        have hne : ¬ (f hd = f x) := by
          intro e
          exact h.1 (e ▸ List.mem_map_of_mem f he)
        rw [if_neg (by simpa using hne)]
        exact ih h.2 he

/-- C1.  Applying the same dimension batch twice (at strictly increasing
stamp times, over an initially empty silver table, with a declared unique
business-key column carried by every row, pairwise-distinct key values and
duplicate-free row dictionaries) leaves exactly one warehouse row per business
key; that row carries the batch values on every declared non-metadata column
it binds, its `updated_at` is the second stamp time, while after the first
application it was the first stamp time, and the stamp strictly advanced. -/
theorem c1_dimension_upsert_idempotent (fields : List String) (ukey : String)
    (batch : List Row) (t1 t2 : Int)
    (hk : ukey ∈ fields) (h1 : ukey ≠ "is_active") (h2 : ukey ≠ "updated_at")
    (h3 : ukey ≠ "source_timestamp") (hu : "updated_at" ∈ fields)
    (hpres : ∀ r ∈ batch, (rlookup r ukey).isSome = true)
    (hkeynodup : (batch.map (fun r => rlookup r ukey)).Nodup)
    (hrows : ∀ r ∈ batch, (r.map Prod.fst).Nodup)
    (ht : t1 < t2) :
    (∀ r ∈ batch,
        ((upsertBatch fields ukey t2
            (upsertBatch fields ukey t1 [] batch) batch).filter
          (fun t => decide (rlookup t ukey = rlookup r ukey))).length = 1) ∧
    (∀ r ∈ batch,
        ∀ t ∈ upsertBatch fields ukey t2 (upsertBatch fields ukey t1 [] batch) batch,
          rlookup t ukey = rlookup r ukey →
            (∀ k v, ¬ k ∈ metadataKeys → k ∈ fields → rlookup r k = some v →
                rlookup t k = some v) ∧
            rlookup t "updated_at" = some (.vdt t2)) ∧
    (∀ t ∈ upsertBatch fields ukey t1 [] batch,
        rlookup t "updated_at" = some (.vdt t1)) ∧
    t1 < t2 := by
  have hT1 : upsertBatch fields ukey t1 [] batch =
      batch.map (prepareRow fields t1) := by
    have := upsertBatch_fresh fields ukey t1 hk h1 h2 h3 batch [] hpres hkeynodup
      (by intro t ht2; simp at ht2)
    simpa using this
  have hT2 : upsertBatch fields ukey t2 (upsertBatch fields ukey t1 [] batch) batch =
      batch.map (prepareRow fields t2) := by
    rw [hT1]
    have := upsertBatch_refresh fields ukey t1 t2 hk h1 h2 h3 batch [] hpres
      hkeynodup hrows (by intro p hp; simp at hp)
    simpa using this
  refine ⟨?_, ?_, ?_, ht⟩
  · intro r hr
    rw [hT2]
    have hmapnodup : ((batch.map (prepareRow fields t2)).map
        (fun t => rlookup t ukey)).Nodup := by
      rw [List.map_map]
      have : (fun t => rlookup t ukey) ∘ prepareRow fields t2 =
          fun r2 => rlookup r2 ukey := by
        funext r2
        exact rlookup_prepareRow_key fields ukey t2 r2 hk h1 h2 h3
      rw [this]
      exact hkeynodup
    have := length_filter_eq_one_of_nodup_map (fun t => rlookup t ukey)
      (batch.map (prepareRow fields t2)) hmapnodup (prepareRow fields t2 r)
      (List.mem_map_of_mem (prepareRow fields t2) hr)
    simpa [rlookup_prepareRow_key fields ukey t2 r hk h1 h2 h3] using this
  · intro r hr t htm heq
    rw [hT2] at htm
    obtain ⟨r2, hr2, hpr2⟩ := List.mem_map.mp htm
    have hkey2 : rlookup r2 ukey = rlookup r ukey := by
      rw [← rlookup_prepareRow_key fields ukey t2 r2 hk h1 h2 h3, hpr2]
      exact heq
    have hre : r2 = r :=
      List.inj_on_of_nodup_map hkeynodup hr2 hr hkey2
    subst hre
    subst hpr2
    constructor
    · intro k v hkm hkf hrv
      rw [rlookup_prepareRow_other fields t2 r2 k hkm, if_pos hkf]
      exact hrv
    · exact rlookup_prepareRow_updated_at fields t2 r2 hu
  · intro t htm
    rw [hT1] at htm
    obtain ⟨r2, _, hpr2⟩ := List.mem_map.mp htm
    rw [← hpr2]
    exact rlookup_prepareRow_updated_at fields t1 r2 hu

/-- First row of the concrete asset batch witnessing the upsert theorems. -/
def c1Row1 : Row :=
  [("resource_name", .vstr "Prod Db"), ("serial_number", .vstr "RES-AB12-CD34"),
   ("description", .vstr "main db"), ("created_at", .vdate 19500)]

/-- Concrete two-row asset batch used to witness `c1_dimension_upsert_idempotent`. -/
def c1Batch : List Row :=
  [c1Row1,
   [("resource_name", .vstr "Cache"), ("serial_number", .vstr "RES-XY99-ZZ11"),
    ("description", .vstr "edge cache"), ("created_at", .vdate 19501)]]

theorem c1_dimension_upsert_idempotent_witness :
    ((upsertBatch dimAssetFields "serial_number" 200
        (upsertBatch dimAssetFields "serial_number" 100 [] c1Batch) c1Batch).filter
      (fun t => decide (rlookup t "serial_number" = rlookup c1Row1 "serial_number"))).length = 1 :=
  (c1_dimension_upsert_idempotent dimAssetFields "serial_number" c1Batch 100 200
    (by decide) (by decide) (by decide) (by decide) (by decide)
    (by decide) (by decide) (by decide) (by decide)).1 c1Row1 (by decide)

/-- C4, counterexample.  The claim says `source_timestamp` is kept whenever
it is present and non-null, but `row.get("source_timestamp") or now` replaces
every Python-falsy value: a row carrying the present, non-null integer `0` is
stamped with the current time instead of its own value. -/
theorem c4_counterexample :
    rlookup [("source_timestamp", Val.vint 0)] "source_timestamp" =
        some (Val.vint 0) ∧
    Val.vint 0 ≠ Val.vnull ∧
    rlookup (prepareRow dimAssetFields 5 [("source_timestamp", Val.vint 0)])
        "source_timestamp" = some (Val.vdt 5) ∧
    some (Val.vdt 5) ≠ some (Val.vint 0) := by
  refine ⟨by decide, by decide, ?_, by decide⟩
  decide

/-- C4, amended.  For every row in a dimension batch the upsert engine
projects the row onto the target model declared fields dropping unknown
columns, stamps `is_active` to true, stamps `updated_at` to the current time,
and stamps `source_timestamp` to the row value when present and truthy under
Python semantics (not null, zero, false or empty), else to the current time. -/
theorem c4_upsert_preparation (fields : List String) (now : Int) (row : Row) :
    ("is_active" ∈ fields →
        rlookup (prepareRow fields now row) "is_active" = some (.vbool true)) ∧
    ("updated_at" ∈ fields →
        rlookup (prepareRow fields now row) "updated_at" = some (.vdt now)) ∧
    ("source_timestamp" ∈ fields →
        (∀ v, rlookup row "source_timestamp" = some v → pyTruthy v = true →
            rlookup (prepareRow fields now row) "source_timestamp" = some v) ∧
        (∀ v, rlookup row "source_timestamp" = some v → pyTruthy v = false →
            rlookup (prepareRow fields now row) "source_timestamp" =
              some (.vdt now)) ∧
        (rlookup row "source_timestamp" = none →
            rlookup (prepareRow fields now row) "source_timestamp" =
              some (.vdt now))) ∧
    (∀ k, ¬ k ∈ metadataKeys →
        rlookup (prepareRow fields now row) k =
          if k ∈ fields then rlookup row k else none) := by
  refine ⟨rlookup_prepareRow_is_active fields now row,
          rlookup_prepareRow_updated_at fields now row, ?_,
          rlookup_prepareRow_other fields now row⟩
  intro hs
  refine ⟨?_, ?_, ?_⟩
  · intro v hv htruthy
    rw [rlookup_prepareRow_source fields now row hs]
    unfold sourceStampValue
    rw [hv]
    simp [htruthy]
  · intro v hv hfalsy
    rw [rlookup_prepareRow_source fields now row hs]
    unfold sourceStampValue
    rw [hv]
    simp [hfalsy]
  · intro hv
    rw [rlookup_prepareRow_source fields now row hs]
    unfold sourceStampValue
    rw [hv]
    simp [pyTruthy]

theorem c4_upsert_preparation_witness :
    rlookup (prepareRow dimAssetFields 7
        [("serial_number", .vstr "RES-AB12-CD34"), ("junk", .vint 1),
         ("source_timestamp", .vdt 3)]) "is_active" = some (.vbool true) ∧
    rlookup (prepareRow dimAssetFields 7
        [("serial_number", .vstr "RES-AB12-CD34"), ("junk", .vint 1),
         ("source_timestamp", .vdt 3)]) "updated_at" = some (.vdt 7) ∧
    rlookup (prepareRow dimAssetFields 7
        [("serial_number", .vstr "RES-AB12-CD34"), ("junk", .vint 1),
         ("source_timestamp", .vdt 3)]) "source_timestamp" = some (.vdt 3) ∧
    rlookup (prepareRow dimAssetFields 7
        [("serial_number", .vstr "RES-AB12-CD34"), ("junk", .vint 1),
         ("source_timestamp", .vdt 3)]) "junk" = none := by
  have h := c4_upsert_preparation dimAssetFields 7
    [("serial_number", .vstr "RES-AB12-CD34"), ("junk", .vint 1),
     ("source_timestamp", .vdt 3)]
  refine ⟨h.1 (by decide), h.2.1 (by decide),
          (h.2.2.1 (by decide)).1 (.vdt 3) (by decide) (by decide), ?_⟩
  have hj := h.2.2.2 "junk" (by decide)
  rw [if_neg (by decide)] at hj
  exact hj

/-! ## Fact CDC processor (`SeedService._process_metrics`)

Per bronze metric row the Python body computes
`action = str(row.get("action", "UPSERT")).upper()` and
`clean_row = {k: v for k, v in row.items() if k in allowed_fields}`, then
either deletes by the composite key `(asset_id, date_id)` or executes
`insert(MetricEntry).values(**clean_row).on_conflict_do_update(
index_elements=["asset_id", "date_id"], set_=clean_row)`. -/

/-- Field list `MetricEntry.model_fields` (`app/data_access/models.py`), in declaration
order. -/
def metricEntryFields : List String :=
  ["id", "asset_id", "provider_id", "region_id", "team_id", "service_type_id",
   "date_id", "environment_id", "status_id", "cost_center_id",
   "security_tier_id", "hardware_profile_id", "cpu_usage_avg",
   "memory_usage_avg", "hourly_cost", "uptime_seconds", "source_timestamp",
   "updated_at"]

/-- The four measure columns of `MetricEntry`. -/
def measureKeys : List String :=
  ["cpu_usage_avg", "memory_usage_avg", "hourly_cost", "uptime_seconds"]

/-- Projection `clean_row = {k: v for k, v in row.items() if k in allowed_fields}`. -/
def cleanMetricRow (row : Row) : Row := projectRow metricEntryFields row

/-- ASCII upper-casing of one character (`str.upper` on the ASCII action tags
in scope). -/
def asciiUpperChar (c : Char) : Char :=
  if 'a' ≤ c ∧ c ≤ 'z' then Char.ofNat (c.toNat - 32) else c

/-- Python `str.upper`, as a total recursion over the character list. -/
def pyUpper (s : String) : String :=
  String.mk (s.data.map asciiUpperChar)

/-- Computation of `str(row.get("action", "UPSERT")).upper()`: an absent key takes the
default, a present null becomes the string `None`. -/
def metricAction (row : Row) : String :=
  pyUpper (pyStr ((rlookup row "action").getD (.vstr "UPSERT")))

/-- Whether a fact row matches the composite key `(asset_id, date_id)`
(the `WHERE` clause of the delete statement). -/
def factMatches (a d : Val) (t : Row) : Bool :=
  decide (rlookup t "asset_id" = some a) && decide (rlookup t "date_id" = some d)

/-- The `DELETE` branch: remove every row matching the composite key. -/
def deleteFact (table : List Row) (a d : Val) : List Row :=
  table.filter (fun t => !(factMatches a d t))

/-- Conflict on the composite unique constraint `uq_asset_date`: the inserted
values and an existing row agree on both key columns (SQL `NULL` equals
nothing). -/
def factConflict (vd t : Row) : Bool :=
  match rlookup vd "asset_id", rlookup vd "date_id" with
  | some a, some d => factMatches a d t
  | _, _ => false

/-- The `UPSERT` branch: insert, or on composite-key conflict overwrite all
columns bound in `clean_row`. -/
def upsertFactRow (table : List Row) (vd : Row) : List Row :=
  if table.any (fun t => factConflict vd t) then
    table.map (fun t => if factConflict vd t then mergeRow t vd else t)
  else table ++ [vd]

/-- One iteration of the `_process_metrics` row loop.  `none` embeds the
`KeyError` that `clean_row["asset_id"]` / `clean_row["date_id"]` raises on a
`DELETE` row lacking a key column (the whole batch transaction would roll
back). -/
def processMetricRow (table : List Row) (row : Row) : Option (List Row) :=
  if metricAction row = "DELETE" then
    match rlookup (cleanMetricRow row) "asset_id",
          rlookup (cleanMetricRow row) "date_id" with
    | some a, some d => some (deleteFact table a d)
    | _, _ => none
  else some (upsertFactRow table (cleanMetricRow row))

/-- Number of fact rows holding the composite key. -/
def countFact (table : List Row) (a d : Val) : Nat :=
  table.countP (fun t => factMatches a d t)

/-! ### Fact CDC lemmas -/

theorem countP_congr_mem {α : Type} (l : List α) (p q : α → Bool)
    (h : ∀ a ∈ l, p a = q a) : l.countP p = l.countP q := by
  induction l with
  | nil => rfl
  | cons hd tl ih =>
      rw [List.countP_cons, List.countP_cons, h hd (by simp),
          ih (fun a ha => h a (by simp [ha]))]

theorem countP_map_comp {α β : Type} (l : List α) (f : α → β) (p : β → Bool) :
    (l.map f).countP p = l.countP (fun a => p (f a)) := by
  induction l with
  | nil => rfl
  | cons hd tl ih => rw [List.map_cons, List.countP_cons, List.countP_cons, ih]

theorem factConflict_eq (vd : Row) (a d : Val)
    (ha : rlookup vd "asset_id" = some a) (hd : rlookup vd "date_id" = some d)
    (t : Row) : factConflict vd t = factMatches a d t := by
  unfold factConflict
  rw [ha, hd]

theorem factMatches_self (vd : Row) (a d : Val)
    (ha : rlookup vd "asset_id" = some a) (hd : rlookup vd "date_id" = some d) :
    factMatches a d vd = true := by
  unfold factMatches
  rw [ha, hd]
  simp

theorem factMatches_mergeRow (t vd : Row) (a d : Val)
    (ha : rlookup vd "asset_id" = some a) (hd : rlookup vd "date_id" = some d)
    (hnodup : (vd.map Prod.fst).Nodup) :
    factMatches a d (mergeRow t vd) = true := by
  have h1 : rlookup (mergeRow t vd) "asset_id" = some a := by
    rw [rlookup_mergeRow t vd _ hnodup, ha]
  have h2 : rlookup (mergeRow t vd) "date_id" = some d := by
    rw [rlookup_mergeRow t vd _ hnodup, hd]
  unfold factMatches
  rw [h1, h2]
  simp

theorem rlookup_cleanMetricRow (row : Row) (k : String)
    (h : k ∈ metricEntryFields) :
    rlookup (cleanMetricRow row) k = rlookup row k := by
  unfold cleanMetricRow
  rw [rlookup_projectRow, if_pos h]

/-- The composite-key population after one fact upsert: a table holding at
most one row for the key holds exactly one afterwards. -/
theorem countFact_upsertFactRow (T : List Row) (vd : Row) (a d : Val)
    (ha : rlookup vd "asset_id" = some a) (hd : rlookup vd "date_id" = some d)
    (hnodup : (vd.map Prod.fst).Nodup) (hT : countFact T a d ≤ 1) :
    countFact (upsertFactRow T vd) a d = 1 := by
  unfold upsertFactRow
  by_cases hany : (T.any (fun t => factConflict vd t)) = true
  · rw [if_pos hany]
    have hpos : 0 < countFact T a d := by
      rw [List.any_eq_true] at hany
      obtain ⟨t, ht, hc⟩ := hany
      unfold countFact
      rw [List.countP_pos_iff]
      refine ⟨t, ht, ?_⟩
      rw [← factConflict_eq vd a d ha hd t]
      exact hc
    have hmap : countFact (T.map (fun t =>
        if factConflict vd t then mergeRow t vd else t)) a d = countFact T a d := by
      unfold countFact
      rw [countP_map_comp]
      apply countP_congr_mem
      intro t ht
      by_cases hc : factConflict vd t = true
      · rw [if_pos hc, factMatches_mergeRow t vd a d ha hd hnodup]
        rw [factConflict_eq vd a d ha hd t] at hc
        rw [hc]
      · rw [if_neg hc]
    rw [hmap]
    omega
  · rw [if_neg hany]
    have hzero : countFact T a d = 0 := by
      by_contra hnz
      have hpos : 0 < countFact T a d := Nat.pos_of_ne_zero hnz
      unfold countFact at hpos
      rw [List.countP_pos_iff] at hpos
      obtain ⟨t, ht, hm⟩ := hpos
      apply hany
      rw [List.any_eq_true]
      refine ⟨t, ht, ?_⟩
      rw [factConflict_eq vd a d ha hd t]
      exact hm
    unfold countFact at *
    rw [List.countP_append, hzero, List.countP_cons, List.countP_nil,
        factMatches_self vd a d ha hd]
    rfl

/-- Rows matching the key after a conflicting fact upsert carry the freshly
inserted values on every column the upsert bound. -/
theorem mem_upsertFactRow_matching (T : List Row) (vd : Row) (a d : Val)
    (ha : rlookup vd "asset_id" = some a) (hd : rlookup vd "date_id" = some d)
    (hnodup : (vd.map Prod.fst).Nodup) :
    ∀ t ∈ upsertFactRow T vd, factMatches a d t = true →
      ∀ k v, rlookup vd k = some v → rlookup t k = some v := by
  intro t htm hmatch k v hkv
  unfold upsertFactRow at htm
  by_cases hany : (T.any (fun t => factConflict vd t)) = true
  · rw [if_pos hany] at htm
    obtain ⟨t0, ht0, hft⟩ := List.mem_map.mp htm
    by_cases hc : factConflict vd t0 = true
    · rw [if_pos hc] at hft
      rw [← hft, rlookup_mergeRow t0 vd k hnodup, hkv]
    · rw [if_neg hc] at hft
      rw [factConflict_eq vd a d ha hd t0] at hc
      rw [← hft] at hmatch
      exact absurd hmatch hc
  · rw [if_neg hany] at htm
    rcases List.mem_append.mp htm with hmem | hmem
    · exfalso
      apply hany
      rw [List.any_eq_true]
      refine ⟨t, hmem, ?_⟩
      rw [factConflict_eq vd a d ha hd t]
      exact hmatch
    · rw [List.mem_singleton.mp hmem, hkv]

/-- Splitting a table that holds exactly one row for a composite key around
that row: the delete removes it and keeps everything else in order. -/
theorem deleteFact_decomp (T : List Row) (a d : Val)
    (h : countFact T a d = 1) :
    ∃ x l1 l2, T = l1 ++ x :: l2 ∧ factMatches a d x = true ∧
      deleteFact T a d = l1 ++ l2 := by
  induction T with
  | nil => simp [countFact] at h
  | cons hd tl ih =>
      unfold countFact at h
      rw [List.countP_cons] at h
      by_cases hm : factMatches a d hd = true
      · have htl : tl.countP (fun t => factMatches a d t) = 0 := by
          rw [hm, if_pos rfl] at h
          omega
        refine ⟨hd, [], tl, by simp, hm, ?_⟩
        unfold deleteFact
        rw [List.filter_cons]
        have hcond : (!(factMatches a d hd)) = false := by rw [hm]; rfl
        rw [hcond]
        have hall : tl.filter (fun t => !(factMatches a d t)) = tl := by
          apply List.filter_eq_self.mpr
          intro t ht
          have hnm := (List.countP_eq_zero.mp htl) t ht
          have hf : factMatches a d t = false := Bool.eq_false_iff.mpr hnm
          rw [hf]
          rfl
        simp [hall]
      · have hmf : factMatches a d hd = false := Bool.eq_false_iff.mpr hm
        have htl : countFact tl a d = 1 := by
          unfold countFact
          rw [hmf, if_neg Bool.false_ne_true] at h
          omega
        obtain ⟨x, l1, l2, he, hx, hf⟩ := ih htl
        refine ⟨x, hd :: l1, l2, by rw [he]; rfl, hx, ?_⟩
        unfold deleteFact at hf ⊢
        rw [List.filter_cons]
        have hcond : (!(factMatches a d hd)) = true := by rw [hmf]; rfl
        rw [hcond]
        simp [hf]

/-- C6.  A fact CDC DELETE row never raises: when no fact row matches the
composite key the table is unchanged, and when exactly one row matches, that
row and nothing else is removed. -/
theorem c6_fact_cdc_delete_idempotent (T : List Row) (rdel : Row) (a d : Val)
    (hact : metricAction rdel = "DELETE")
    (ha : rlookup rdel "asset_id" = some a)
    (hd : rlookup rdel "date_id" = some d) :
    processMetricRow T rdel = some (deleteFact T a d) ∧
    (countFact T a d = 0 → deleteFact T a d = T) ∧
    (countFact T a d = 1 →
        ∃ x l1 l2, T = l1 ++ x :: l2 ∧ factMatches a d x = true ∧
          deleteFact T a d = l1 ++ l2) := by
  have hca : rlookup (cleanMetricRow rdel) "asset_id" = some a := by
    rw [rlookup_cleanMetricRow rdel "asset_id" (by decide)]
    exact ha
  have hcd : rlookup (cleanMetricRow rdel) "date_id" = some d := by
    rw [rlookup_cleanMetricRow rdel "date_id" (by decide)]
    exact hd
  refine ⟨?_, ?_, deleteFact_decomp T a d⟩
  · unfold processMetricRow
    rw [if_pos hact, hca, hcd]
  · intro h0
    unfold countFact at h0
    unfold deleteFact
    apply List.filter_eq_self.mpr
    intro t ht
    have hnm := (List.countP_eq_zero.mp h0) t ht
    have hf : factMatches a d t = false := Bool.eq_false_iff.mpr hnm
    rw [hf]
    rfl


/-- Concrete delete row used to witness `c6_fact_cdc_delete_idempotent`. -/
def c6DelRow : Row :=
  [("action", .vstr "DELETE"), ("asset_id", .vint 1), ("date_id", .vint 2)]

/-- A fact table holding no row for the key `(1, 2)`. -/
def c6Table : List Row :=
  [[("asset_id", .vint 9), ("date_id", .vint 2), ("cpu_usage_avg", .vint 40)]]

theorem c6_fact_cdc_delete_idempotent_witness :
    processMetricRow c6Table c6DelRow =
        some (deleteFact c6Table (.vint 1) (.vint 2)) ∧
    deleteFact c6Table (.vint 1) (.vint 2) = c6Table := by
  have h := c6_fact_cdc_delete_idempotent c6Table c6DelRow (.vint 1) (.vint 2)
    (by decide) (by decide) (by decide)
  exact ⟨h.1, h.2.1 (by decide)⟩

/-- C5.  Applying two fact CDC UPSERT rows with the same composite key
`(asset_id, date_id)` in sequence (over a table satisfying the composite
unique constraint) leaves exactly one fact row for that key, and that row
carries the second row's value on every declared column the second row binds
— in particular its measure values. -/
theorem c5_fact_cdc_correction (T : List Row) (r1 r2 : Row) (a d : Val)
    (hT : countFact T a d ≤ 1)
    (hact1 : metricAction r1 ≠ "DELETE") (hact2 : metricAction r2 ≠ "DELETE")
    (ha1 : rlookup r1 "asset_id" = some a) (hd1 : rlookup r1 "date_id" = some d)
    (ha2 : rlookup r2 "asset_id" = some a) (hd2 : rlookup r2 "date_id" = some d)
    (hn1 : (r1.map Prod.fst).Nodup) (hn2 : (r2.map Prod.fst).Nodup) :
    processMetricRow T r1 = some (upsertFactRow T (cleanMetricRow r1)) ∧
    processMetricRow (upsertFactRow T (cleanMetricRow r1)) r2 =
      some (upsertFactRow (upsertFactRow T (cleanMetricRow r1))
        (cleanMetricRow r2)) ∧
    countFact (upsertFactRow (upsertFactRow T (cleanMetricRow r1))
      (cleanMetricRow r2)) a d = 1 ∧
    (∀ t ∈ upsertFactRow (upsertFactRow T (cleanMetricRow r1))
        (cleanMetricRow r2),
      factMatches a d t = true →
        ∀ k v, k ∈ metricEntryFields → rlookup r2 k = some v →
          rlookup t k = some v) := by
  have hca1 : rlookup (cleanMetricRow r1) "asset_id" = some a := by
    rw [rlookup_cleanMetricRow r1 "asset_id" (by decide)]; exact ha1
  have hcd1 : rlookup (cleanMetricRow r1) "date_id" = some d := by
    rw [rlookup_cleanMetricRow r1 "date_id" (by decide)]; exact hd1
  have hca2 : rlookup (cleanMetricRow r2) "asset_id" = some a := by
    rw [rlookup_cleanMetricRow r2 "asset_id" (by decide)]; exact ha2
  have hcd2 : rlookup (cleanMetricRow r2) "date_id" = some d := by
    rw [rlookup_cleanMetricRow r2 "date_id" (by decide)]; exact hd2
  have hcn1 : ((cleanMetricRow r1).map Prod.fst).Nodup :=
    nodup_keys_projectRow metricEntryFields r1 hn1
  have hcn2 : ((cleanMetricRow r2).map Prod.fst).Nodup :=
    nodup_keys_projectRow metricEntryFields r2 hn2
  have hc1 : countFact (upsertFactRow T (cleanMetricRow r1)) a d = 1 :=
    countFact_upsertFactRow T (cleanMetricRow r1) a d hca1 hcd1 hcn1 hT
  refine ⟨?_, ?_, ?_, ?_⟩
  · unfold processMetricRow
    rw [if_neg hact1]
  · unfold processMetricRow
    rw [if_neg hact2]
  · exact countFact_upsertFactRow (upsertFactRow T (cleanMetricRow r1))
      (cleanMetricRow r2) a d hca2 hcd2 hcn2 (le_of_eq hc1)
  · intro t htm hmatch k v hkf hrv
    refine mem_upsertFactRow_matching (upsertFactRow T (cleanMetricRow r1))
      (cleanMetricRow r2) a d hca2 hcd2 hcn2 t htm hmatch k v ?_
    rw [rlookup_cleanMetricRow r2 k hkf]
    exact hrv

/-- First concrete metric UPSERT row for the key `(1, 2)`. -/
def c5Row1 : Row :=
  [("asset_id", .vint 1), ("date_id", .vint 2), ("cpu_usage_avg", .vint 50)]

/-- Second concrete metric UPSERT row for the key `(1, 2)` carrying a
corrected measure. -/
def c5Row2 : Row :=
  [("asset_id", .vint 1), ("date_id", .vint 2), ("cpu_usage_avg", .vint 75)]

theorem c5_fact_cdc_correction_witness :
    processMetricRow [] c5Row1 = some (upsertFactRow [] (cleanMetricRow c5Row1)) ∧
    countFact (upsertFactRow (upsertFactRow [] (cleanMetricRow c5Row1))
      (cleanMetricRow c5Row2)) (.vint 1) (.vint 2) = 1 := by
  have h := c5_fact_cdc_correction [] c5Row1 c5Row2 (.vint 1) (.vint 2)
    (by decide) (by decide) (by decide) (by decide) (by decide) (by decide)
    (by decide) (by decide) (by decide)
  exact ⟨h.1, h.2.2.1⟩

/-- C10.  Only an action whose upper-cased string form is exactly `DELETE`
takes the delete branch of the fact CDC loop; a missing action field, a null
action and every other tag are processed as an UPSERT. -/
theorem c10_action_dispatch (T : List Row) (row : Row) :
    (rlookup row "action" = none →
        processMetricRow T row = some (upsertFactRow T (cleanMetricRow row))) ∧
    (rlookup row "action" = some .vnull →
        processMetricRow T row = some (upsertFactRow T (cleanMetricRow row))) ∧
    (∀ v, rlookup row "action" = some v → pyUpper (pyStr v) ≠ "DELETE" →
        processMetricRow T row = some (upsertFactRow T (cleanMetricRow row))) ∧
    (∀ s a d, rlookup row "action" = some (.vstr s) → pyUpper s = "DELETE" →
        rlookup row "asset_id" = some a → rlookup row "date_id" = some d →
        processMetricRow T row = some (deleteFact T a d)) := by
  refine ⟨?_, ?_, ?_, ?_⟩
  · intro h
    unfold processMetricRow metricAction
    rw [h]
    rw [if_neg (by decide)]
  · intro h
    unfold processMetricRow metricAction
    rw [h]
    rw [if_neg (by decide)]
  · intro v hv hne
    unfold processMetricRow metricAction
    rw [hv]
    simp only [Option.getD_some]
    rw [if_neg hne]
  · intro s a d hv hup ha hd
    have hca : rlookup (cleanMetricRow row) "asset_id" = some a := by
      rw [rlookup_cleanMetricRow row "asset_id" (by decide)]; exact ha
    have hcd : rlookup (cleanMetricRow row) "date_id" = some d := by
      rw [rlookup_cleanMetricRow row "date_id" (by decide)]; exact hd
    unfold processMetricRow metricAction
    rw [hv]
    simp only [Option.getD_some, pyStr]
    rw [if_pos hup, hca, hcd]

/-- Concrete lower-case delete row used to witness `c10_action_dispatch`. -/
def c10DelRow : Row :=
  [("action", .vstr "delete"), ("asset_id", .vint 1), ("date_id", .vint 2)]

/-- Concrete row with a null action used to witness `c10_action_dispatch`. -/
def c10NullRow : Row :=
  [("action", .vnull), ("asset_id", .vint 1), ("date_id", .vint 2)]

theorem c10_action_dispatch_witness :
    processMetricRow [] c10NullRow =
        some (upsertFactRow [] (cleanMetricRow c10NullRow)) ∧
    processMetricRow [] c10DelRow = some (deleteFact [] (.vint 1) (.vint 2)) := by
  refine ⟨(c10_action_dispatch [] c10NullRow).2.1 (by decide), ?_⟩
  exact (c10_action_dispatch [] c10DelRow).2.2.2 "delete" (.vint 1) (.vint 2)
    (by decide) (by decide) (by decide) (by decide)

/-! ## Search sync formatting (`SeedService._sync_to_typesense`, step 2)

After domain validation the code formats the document:
`doc["id"] = str(doc.get("id"))`, then for every key a `datetime` value
becomes `int(value.timestamp())` and a pure `date` value becomes
`int(datetime.combine(value, datetime.min.time()).timestamp())`.
`datetime.combine(value, datetime.min.time())` is a naive datetime, so its
`timestamp()` interprets that midnight in the process-local timezone; the
embedding carries that timezone as an explicit offset in seconds east of
UTC. -/

/-- Formatting of one document value: a datetime instant to its epoch
seconds, a pure date to the epoch seconds of local midnight of that day. -/
def formatDocValue (tzOffset : Int) (v : Val) : Val :=
  match v with
  | .vdt e => .vint e
  | .vdate days => .vint (86400 * days - tzOffset)
  | other => other

/-- The per-document formatting step: the id coerced through `str`, then
every value converted in place. -/
def formatForTypesense (tzOffset : Int) (doc : Row) : Row :=
  (rset doc "id" (.vstr (pyStr ((rlookup doc "id").getD .vnull)))).map
    (fun p => (p.1, formatDocValue tzOffset p.2))

/-- Decoding an epoch-seconds integer back to the UTC calendar day containing
it (floor division, as `datetime.utcfromtimestamp` does). -/
def decodeEpochDay (secs : Int) : Int := Int.fdiv secs 86400

theorem rlookup_map_value (doc : Row) (f : Val → Val) (k : String) :
    rlookup (doc.map (fun p => (p.1, f p.2))) k = (rlookup doc k).map f := by
  induction doc with
  | nil => rfl
  | cons hd tl ih =>
      obtain ⟨a, b⟩ := hd
      by_cases h : a = k
      · simp [rlookup, h]
      · simp [rlookup, h, ih]

/-- C3, counterexample.  The code encodes a pure date via the timestamp of
a naive local-midnight datetime, not midnight UTC: with the process timezone
at UTC+01:00 (offset 3600 s) the date 1970-01-01 (day 0) encodes to −3600,
which differs from the midnight-UTC value 0 and decodes to the previous
calendar day. -/
theorem c3_counterexample :
    formatForTypesense 3600 [("id", .vint 1), ("created_at", .vdate 0)] =
      [("id", .vstr "1"), ("created_at", .vint (-3600))] ∧
    (-3600 : Int) ≠ 86400 * 0 ∧
    decodeEpochDay (-3600) ≠ 0 := by
  refine ⟨by decide, by decide, by decide⟩

/-- C3, amended.  For every warehouse row synchronized to the search
index, the document's id is coerced to a string, every datetime field becomes
its integer epoch seconds, and every pure-date field becomes the epoch
seconds of midnight of that date in the process-local timezone; when that
timezone is UTC (offset 0) this is midnight UTC and decoding the integer
recovers the original calendar date. -/
theorem c3_sync_encoding (doc : Row) :
    rlookup (formatForTypesense 0 doc) "id" =
      some (.vstr (pyStr ((rlookup doc "id").getD .vnull))) ∧
    (∀ k e, k ≠ "id" → rlookup doc k = some (.vdt e) →
        rlookup (formatForTypesense 0 doc) k = some (.vint e)) ∧
    (∀ k days, k ≠ "id" → rlookup doc k = some (.vdate days) →
        rlookup (formatForTypesense 0 doc) k = some (.vint (86400 * days)) ∧
        decodeEpochDay (86400 * days) = days) := by
  refine ⟨?_, ?_, ?_⟩
  · unfold formatForTypesense
    rw [rlookup_map_value, rlookup_rset_self]
    rfl
  · intro k e hk hke
    unfold formatForTypesense
    rw [rlookup_map_value, rlookup_rset_other doc "id" k _ hk, hke]
    rfl
  · intro k days hk hkd
    constructor
    · unfold formatForTypesense
      rw [rlookup_map_value, rlookup_rset_other doc "id" k _ hk, hkd]
      simp [formatDocValue]
    · unfold decodeEpochDay
      rw [Int.mul_comm]
      exact Int.mul_fdiv_cancel days (by norm_num)

/-- Concrete asset document used to witness `c3_sync_encoding`. -/
def c3Doc : Row :=
  [("id", .vint 7), ("resource_name", .vstr "Prod Db"),
   ("created_at", .vdate 19500), ("source_timestamp", .vdt 1684500000)]

theorem c3_sync_encoding_witness :
    rlookup (formatForTypesense 0 c3Doc) "id" =
        some (.vstr (pyStr ((rlookup c3Doc "id").getD .vnull))) ∧
    rlookup (formatForTypesense 0 c3Doc) "source_timestamp" =
        some (.vint 1684500000) ∧
    rlookup (formatForTypesense 0 c3Doc) "created_at" =
        some (.vint (86400 * 19500)) ∧
    decodeEpochDay (86400 * 19500) = 19500 := by
  have h := c3_sync_encoding c3Doc
  exact ⟨h.1, h.2.1 "source_timestamp" 1684500000 (by decide) (by decide),
         (h.2.2 "created_at" 19500 (by decide) (by decide)).1,
         (h.2.2 "created_at" 19500 (by decide) (by decide)).2⟩

/-! ## Raw extraction and bronze ingestion
(`DataExtractor`, `SeedService._ingest_all_to_bronze`) -/

/-- ASCII lower-casing of one character. -/
def asciiLowerChar (c : Char) : Char :=
  if 'A' ≤ c ∧ c ≤ 'Z' then Char.ofNat (c.toNat + 32) else c

/-- Python `str.lower` over the character list. -/
def pyLower (s : String) : String :=
  String.mk (s.data.map asciiLowerChar)

/-- Drops characters until the remaining text starts with the token; `none`
when the token does not occur anywhere. -/
def dropUntilToken (tok : List Char) : List Char → Option (List Char)
  | [] => if tok = [] then some [] else none
  | c :: rest =>
      if tok.isPrefixOf (c :: rest) then some (c :: rest)
      else dropUntilToken tok rest

/-- Whether the header token occurs in the text. -/
def containsToken (text token : String) : Bool :=
  (dropUntilToken token.data text.data).isSome

/-- Parse delimited text: the first line is the header, each following
non-empty line is comma-separated values zipped against the header. -/
def parseDelimited (text : String) : List Row :=
  match text.splitOn "\n" with
  | [] => []
  | headerLine :: dataLines =>
      (dataLines.filter (fun l => !(l.isEmpty))).map
        (fun l => (headerLine.splitOn ",").zip ((l.splitOn ",").map Val.vstr))

/-- Modelled from the spec: `DataExtractor.convert_text_to_df`, which
`_ingest_all_to_bronze` calls for `.pdf` files, is absent from the repository
snapshot (only its caller exists).  Per spec §4.1 the extractor locates the
first occurrence of the known header token in the unstructured text and
parses everything from that point forward as delimited text; if the token is
absent it returns an empty batch rather than failing. -/
def convert_text_to_df (rawText : String) (headerToken : String) : List Row :=
  match dropUntilToken headerToken.data rawText.data with
  | none => []
  | some suffix => parseDelimited (String.mk suffix)

/-- One discoverable storage file, carrying what the extension-matched
extractor yields for it: the parsed dataframe for `.csv` / `.json`, the
`extract_pdf_text` output for `.pdf`, nothing for any other extension
(the loop continues before extraction there). -/
inductive SourceFile where
  | csvFile : String → List Row → SourceFile
  | jsonFile : String → List Row → SourceFile
  | pdfFile : String → String → SourceFile
  | otherFile : String → SourceFile

/-- The storage object name of a file. -/
def SourceFile.name : SourceFile → String
  | .csvFile n _ => n
  | .jsonFile n _ => n
  | .pdfFile n _ => n
  | .otherFile n => n

/-- Stem computation `file_name.rsplit(".", 1)[0]`: everything before the last dot, the whole
name when there is none. -/
def fileStem (name : String) : String :=
  match (name.data.reverse).dropWhile (fun c => !(decide (c = '.'))) with
  | [] => name
  | _ :: stemRev => String.mk stemRev.reverse

/-- Whether a character is an ASCII digit. -/
def isDigitChar (c : Char) : Bool := decide ('0' ≤ c ∧ c ≤ '9')

/-- The prefix of the stem before the first occurrence of the date-stamp
token `_` + four digits + `_` (`re.split(r"_\d{4}_", file_stem)[0]`); the
whole stem when the token is absent. -/
def splitStampPrefix : List Char → List Char
  | [] => []
  | c :: rest =>
      if c = '_' then
        match rest with
        | d1 :: d2 :: d3 :: d4 :: u :: _ =>
            if isDigitChar d1 && isDigitChar d2 && isDigitChar d3 &&
                isDigitChar d4 && decide (u = '_') then []
            else c :: splitStampPrefix rest
        | _ => c :: splitStampPrefix rest
      else c :: splitStampPrefix rest

/-- The bronze staging table name inferred from a file name. -/
def tableNameOf (fileName : String) : String :=
  pyLower (String.mk (splitStampPrefix (fileStem fileName).data))

/-- Normalization `c.lower().replace(" ", "_")` of one column-name character. -/
def normColChar (c : Char) : Char :=
  if c = ' ' then '_' else asciiLowerChar c

/-- The column standardization applied before the staging write. -/
def normalizeCols (df : List Row) : List Row :=
  df.map (fun r => r.map (fun p => (String.mk (p.1.data.map normColChar), p.2)))

/-- One iteration of the `_ingest_all_to_bronze` file loop: `none` when the
loop lands nothing for the file (placeholder skip, unknown extension, or an
empty extracted batch), otherwise the staging write `(table name, batch)`
executed in replace mode. -/
def ingestOne (f : SourceFile) : Option (String × List Row) :=
  if f.name = ".emptyFolderPlaceholder" then none
  else
    match f with
    | .csvFile n df => if df.isEmpty then none else some (tableNameOf n, normalizeCols df)
    | .jsonFile n df => if df.isEmpty then none else some (tableNameOf n, normalizeCols df)
    | .pdfFile n text =>
        if (convert_text_to_df text "provider_name").isEmpty then none
        else some (tableNameOf n, normalizeCols (convert_text_to_df text "provider_name"))
    | .otherFile _ => none

/-- The whole bronze phase over the listed storage files: the sequence of
staging writes it performs, in order. -/
def ingestAllToBronze (files : List SourceFile) : List (String × List Row) :=
  files.filterMap ingestOne

/-- C2.  A PDF file whose extracted text contains no occurrence of the
known header token yields an empty batch: no staging write happens for it,
nothing is raised, and ingestion of the surrounding files is exactly as if
the file were absent. -/
theorem c2_pdf_without_header_token (name text : String)
    (pre post : List SourceFile)
    (h : containsToken text "provider_name" = false) :
    convert_text_to_df text "provider_name" = [] ∧
    ingestOne (.pdfFile name text) = none ∧
    ingestAllToBronze (pre ++ .pdfFile name text :: post) =
      ingestAllToBronze (pre ++ post) := by
  have hnone : dropUntilToken "provider_name".data text.data = none := by
    unfold containsToken at h
    exact Option.not_isSome_iff_eq_none.mp (by rw [h]; exact Bool.false_ne_true)
  have hempty : convert_text_to_df text "provider_name" = [] := by
    unfold convert_text_to_df
    rw [hnone]
  have hskip : ingestOne (.pdfFile name text) = none := by
    unfold ingestOne
    by_cases hn : SourceFile.name (.pdfFile name text) = ".emptyFolderPlaceholder"
    · rw [if_pos hn]
    · rw [if_neg hn]
      simp only [hempty]
      rfl
  refine ⟨hempty, hskip, ?_⟩
  unfold ingestAllToBronze
  rw [List.filterMap_append, List.filterMap_append, List.filterMap_cons, hskip]

theorem c2_pdf_without_header_token_witness :
    convert_text_to_df "no tabular content" "provider_name" = [] ∧
    ingestOne (.pdfFile "providers_2024_Q1.pdf" "no tabular content") = none ∧
    ingestAllToBronze
        [.pdfFile "providers_2024_Q1.pdf" "no tabular content",
         .csvFile "assets.csv" [[("serial_number", .vstr "RES-AB12-CD34")]]] =
      ingestAllToBronze
        [.csvFile "assets.csv" [[("serial_number", .vstr "RES-AB12-CD34")]]] := by
  have h := c2_pdf_without_header_token "providers_2024_Q1.pdf"
    "no tabular content" []
    [.csvFile "assets.csv" [[("serial_number", .vstr "RES-AB12-CD34")]]]
    (by decide)
  simpa using h

/-! ## Pipeline orchestration (`SeedService.run_seed_process`) -/

/-- The outcome of each pipeline phase, in the execution order of the `try`
body; `Except.error` embeds an exception raised inside the phase together
with its `str(e)` message. -/
structure PipelinePhases where
  cleanupDatabase : Except String Unit
  cleanupTypesense : Except String Unit
  prepareEnvironment : Except String Unit
  ingestBronze : Except String Unit
  seedCalendarPhase : Except String Unit
  processDimensions : Except String Unit
  processMetricsPhase : Except String Unit
  refreshGoldViews : Except String Unit

/-- The sequential body inside the `try`: the first phase to raise
short-circuits the rest. -/
def phaseChain (p : PipelinePhases) : Except String Unit := do
  p.cleanupDatabase
  p.cleanupTypesense
  p.prepareEnvironment
  p.ingestBronze
  p.seedCalendarPhase
  p.processDimensions
  p.processMetricsPhase
  p.refreshGoldViews

/-- The structured result dictionary `run_seed_process` returns. -/
structure SeedResult where
  status : String
  message : String
  deriving DecidableEq, Repr

/-- Entry point `run_seed_process`: the `try`/`except Exception` boundary around the
phase sequence, always yielding a status/message dictionary. -/
def runSeedProcess (p : PipelinePhases) : SeedResult :=
  match phaseChain p with
  | .ok _ => ⟨"success", "Pipeline and Gold Layer Sync Complete."⟩
  | .error e => ⟨"error", e⟩

/-- C7.  The pipeline entry point is total on every combination of phase
outcomes: it always returns a structured result whose status is `success` or
`error`, any phase exception is translated into the `error` status carrying
the exception message, and the all-phases-ok run reports `success`. -/
theorem c7_run_seed_process_total (p : PipelinePhases) :
    ((runSeedProcess p).status = "success" ∨
      (runSeedProcess p).status = "error") ∧
    (∀ e, phaseChain p = .error e → runSeedProcess p = ⟨"error", e⟩) ∧
    (phaseChain p = .ok () →
      runSeedProcess p =
        ⟨"success", "Pipeline and Gold Layer Sync Complete."⟩) := by
  refine ⟨?_, ?_, ?_⟩
  · unfold runSeedProcess
    cases phaseChain p with
    | ok u => exact Or.inl rfl
    | error e => exact Or.inr rfl
  · intro e he
    unfold runSeedProcess
    rw [he]
  · intro he
    unfold runSeedProcess
    rw [he]

/-- Phase outcomes where the bronze ingestion raises, used to witness
`c7_run_seed_process_total`. -/
def c7FailingPhases : PipelinePhases :=
  ⟨.ok (), .ok (), .ok (), .error "connection refused",
   .ok (), .ok (), .ok (), .ok ()⟩

theorem c7_run_seed_process_total_witness :
    runSeedProcess c7FailingPhases = ⟨"error", "connection refused"⟩ :=
  (c7_run_seed_process_total c7FailingPhases).2.1 "connection refused" rfl

/-! ## Calendar dimension (`DateDimensionGenerator.generate_range`,
`SeedService._seed_calendar`) -/

/-- Month names as `%B` renders them. -/
def monthNames : List String :=
  ["January", "February", "March", "April", "May", "June", "July",
   "August", "September", "October", "November", "December"]

/-- Day names as `%A` renders them, Monday first as polars weekday numbering. -/
def dayNames : List String :=
  ["Monday", "Tuesday", "Wednesday", "Thursday", "Friday", "Saturday",
   "Sunday"]

/-- ISO weekday of an epoch day count (1 = Monday … 7 = Sunday; day 0,
1970-01-01, was a Thursday), as polars `dt.weekday()`. -/
def weekdayOf (days : Int) : Int := Int.emod (days + 3) 7 + 1

/-- One row of the generated calendar frame, with the columns
`generate_range` keeps after dropping `date_obj`. -/
def mkDateRow (days : Int) : Row :=
  [("full_date", .vdate days),
   ("year", .vint (civilFromDays days).1),
   ("month", .vint (civilFromDays days).2.1),
   ("month_name", .vstr (monthNames.getD ((civilFromDays days).2.1 - 1).toNat "")),
   ("day", .vint (civilFromDays days).2.2),
   ("day_of_week", .vint (weekdayOf days)),
   ("day_name", .vstr (dayNames.getD (weekdayOf days - 1).toNat "")),
   ("quarter", .vint (Int.fdiv ((civilFromDays days).2.1 + 2) 3)),
   ("is_weekend", .vbool (decide (weekdayOf days = 6 ∨ weekdayOf days = 7)))]

/-- Calendar generation `DateDimensionGenerator.generate_range(start_year, end_year)`: one row
per day from January 1 of the start year through December 31 of the end
year, inclusive. -/
def generate_range (startYear endYear : Int) : List Row :=
  (List.range (daysFromCivil endYear 12 31 - daysFromCivil startYear 1 1 + 1).toNat).map
    (fun i => mkDateRow (daysFromCivil startYear 1 1 + i))

/-- Orchestration step `SeedService._seed_calendar`: look for one existing `DimDate` row; skip
generation entirely when found, otherwise generate 2023–2026 and append. -/
def seedCalendar (dimDate : List Row) : List Row :=
  if dimDate.head?.isSome then dimDate
  else dimDate ++ generate_range 2023 2026

/-- C9.  When the date-dimension table already holds at least one row, the
calendar seed step performs no generation and no write: the table contents
and the row count are unchanged. -/
theorem c9_calendar_idempotent_seed (dimDate : List Row) (h : dimDate ≠ []) :
    seedCalendar dimDate = dimDate ∧
    (seedCalendar dimDate).length = dimDate.length := by
  have hh : dimDate.head?.isSome = true := by
    cases dimDate with
    | nil => exact absurd rfl h
    | cons a l => rfl
  unfold seedCalendar
  rw [if_pos hh]
  exact ⟨rfl, rfl⟩

/-- A one-row `DimDate` table used to witness `c9_calendar_idempotent_seed`. -/
def c9Table : List Row := [mkDateRow 19358]

theorem c9_calendar_idempotent_seed_witness :
    seedCalendar c9Table = c9Table ∧
    (seedCalendar c9Table).length = c9Table.length :=
  c9_calendar_idempotent_seed c9Table (by decide)

/-! ## Global fan-out search (`SearchService.global_search`) -/

/-- The ten dimension collections, in the order `global_search` declares
them; the multi-search response is positionally indexed against this list. -/
def collectionsToSearch : List String :=
  ["AssetDomain", "CostCenterDomain", "EnvironmentDomain",
   "HardwareProfileDomain", "ProviderDomain", "RegionDomain",
   "SecurityTierDomain", "ServiceTypeDomain", "StatusDomain", "TeamDomain"]

/-- Tagging of one hit document with its source entity type
(`doc["domain_entity"] = source_collection`). -/
def tagHit (collection : String) (doc : Row) : Row :=
  rset doc "domain_entity" (.vstr collection)

/-- The merge loop of `global_search` over the per-collection result lists:
walks them in response order, tags every document with the collection
declared at the same index, and flattens into one list.  `none` embeds the
`IndexError` raised when the response carries more result lists than
declared collections. -/
def globalSearchMerge (results : List (List Row)) : Option (List Row) :=
  if results.length ≤ collectionsToSearch.length then
    some (((results.zip collectionsToSearch).map
      (fun pr => pr.1.map (tagHit pr.2))).flatten)
  else none

theorem get_zip_pair {α β : Type} (l1 : List α) (l2 : List β) :
    ∀ (i : Nat) (h1 : i < l1.length) (h2 : i < l2.length)
      (hz : i < (l1.zip l2).length),
      (l1.zip l2).get ⟨i, hz⟩ = (l1.get ⟨i, h1⟩, l2.get ⟨i, h2⟩) := by
  induction l1 generalizing l2 with
  | nil => intro i h1; simp at h1
  | cons a l1 ih =>
      intro i h1 h2 hz
      cases l2 with
      | nil => simp at h2
      | cons b l2 =>
          cases i with
          | zero => rfl
          | succ j =>
              exact ih l2 j (Nat.lt_of_succ_lt_succ h1)
                (Nat.lt_of_succ_lt_succ h2)
                (Nat.lt_of_succ_lt_succ (by simpa using hz))

theorem get_map_fn {α β : Type} (f : α → β) (l : List α) :
    ∀ (i : Nat) (h : i < l.length) (hm : i < (l.map f).length),
      (l.map f).get ⟨i, hm⟩ = f (l.get ⟨i, h⟩) := by
  induction l with
  | nil => intro i h; simp at h
  | cons a l ih =>
      intro i h hm
      cases i with
      | zero => rfl
      | succ j =>
          exact ih j (Nat.lt_of_succ_lt_succ h)
            (Nat.lt_of_succ_lt_succ (by simpa using hm))

theorem zip_map_tag_lengths (results : List (List Row)) (cols : List String)
    (h : results.length ≤ cols.length) :
    ((results.zip cols).map (fun pr => pr.1.map (tagHit pr.2))).map
        List.length = results.map List.length := by
  induction results generalizing cols with
  | nil => rfl
  | cons r rest ih =>
      cases cols with
      | nil => simp at h
      | cons c cs =>
          simp only [List.zip_cons_cons, List.map_cons, List.length_map,
            List.cons.injEq]
          exact ⟨trivial, ih cs (by simpa using h)⟩

/-- C8.  For a well-formed multi-collection response (one hit list per
declared collection) the fan-out merge walks the hit lists in declaration
order, tags each hit document with the entity type declared at the same
position, and flattens everything: the merged length is the sum of the
per-collection hit counts (so an empty hit list contributes nothing), every
hit appears tagged with its source entity type, and every merged document is
the tagged version of some hit of the collection at its position. -/
theorem c8_fan_out_tagging (results : List (List Row))
    (h : results.length = collectionsToSearch.length) :
    globalSearchMerge results =
      some (((results.zip collectionsToSearch).map
        (fun pr => pr.1.map (tagHit pr.2))).flatten) ∧
    (((results.zip collectionsToSearch).map
        (fun pr => pr.1.map (tagHit pr.2))).flatten).length =
      (results.map List.length).sum ∧
    (∀ (i : Nat) (h1 : i < results.length)
        (h2 : i < collectionsToSearch.length),
      ∀ doc ∈ results.get ⟨i, h1⟩,
        tagHit (collectionsToSearch.get ⟨i, h2⟩) doc ∈
            ((results.zip collectionsToSearch).map
              (fun pr => pr.1.map (tagHit pr.2))).flatten ∧
        rlookup (tagHit (collectionsToSearch.get ⟨i, h2⟩) doc)
            "domain_entity" =
          some (.vstr (collectionsToSearch.get ⟨i, h2⟩))) ∧
    (∀ d ∈ ((results.zip collectionsToSearch).map
        (fun pr => pr.1.map (tagHit pr.2))).flatten,
      ∃ (i : Nat) (h1 : i < results.length)
        (h2 : i < collectionsToSearch.length),
        ∃ doc, doc ∈ results.get ⟨i, h1⟩ ∧
          d = tagHit (collectionsToSearch.get ⟨i, h2⟩) doc) := by
  have hz : (results.zip collectionsToSearch).length = results.length := by
    rw [List.length_zip, h, Nat.min_self]
  refine ⟨?_, ?_, ?_, ?_⟩
  · unfold globalSearchMerge
    rw [if_pos (le_of_eq h)]
  · rw [List.length_flatten, zip_map_tag_lengths results collectionsToSearch (le_of_eq h)]
  · intro i h1 h2 doc hdoc
    have hiz : i < (results.zip collectionsToSearch).length := by omega
    have him : i < ((results.zip collectionsToSearch).map
        (fun pr => pr.1.map (tagHit pr.2))).length := by
      rw [List.length_map]; omega
    have hinner : ((results.zip collectionsToSearch).map
        (fun pr => pr.1.map (tagHit pr.2))).get ⟨i, him⟩ =
        (results.get ⟨i, h1⟩).map (tagHit (collectionsToSearch.get ⟨i, h2⟩)) := by
      rw [get_map_fn _ _ i hiz him,
          get_zip_pair results collectionsToSearch i h1 h2 hiz]
    constructor
    · rw [List.mem_flatten]
      refine ⟨(results.get ⟨i, h1⟩).map
          (tagHit (collectionsToSearch.get ⟨i, h2⟩)), ?_, ?_⟩
      · rw [← hinner]
        exact List.get_mem _ _ _
      · exact List.mem_map_of_mem _ hdoc
    · exact rlookup_rset_self doc "domain_entity" _
  · intro d hd
    rw [List.mem_flatten] at hd
    obtain ⟨inner, hinner, hdin⟩ := hd
    obtain ⟨pr, hpr, hprin⟩ := List.mem_map.mp hinner
    obtain ⟨⟨i, hiz⟩, hget⟩ := List.mem_iff_get.mp hpr
    have h1 : i < results.length := by omega
    have h2 : i < collectionsToSearch.length := by
      rw [← h]; omega
    have hpair : pr = (results.get ⟨i, h1⟩, collectionsToSearch.get ⟨i, h2⟩) := by
      rw [← hget, get_zip_pair results collectionsToSearch i h1 h2 hiz]
    rw [← hprin, hpair] at hdin
    obtain ⟨doc, hdoc, htag⟩ := List.mem_map.mp hdin
    exact ⟨i, h1, h2, doc, hdoc, htag.symm⟩

/-- A response with one asset hit and nine empty hit lists, used to witness
`c8_fan_out_tagging`. -/
def c8Results : List (List Row) :=
  [[[("id", .vstr "1"), ("resource_name", .vstr "Prod Db")]],
   [], [], [], [], [], [], [], [], []]

theorem c8_fan_out_tagging_witness :
    globalSearchMerge c8Results =
      some (((c8Results.zip collectionsToSearch).map
        (fun pr => pr.1.map (tagHit pr.2))).flatten) ∧
    (((c8Results.zip collectionsToSearch).map
        (fun pr => pr.1.map (tagHit pr.2))).flatten).length =
      (c8Results.map List.length).sum := by
  have h := c8_fan_out_tagging c8Results (by decide)
  exact ⟨h.1, h.2.1⟩

end VectorDomainSearch

